import Mathlib

/-!
Verification of the kuroko-ops core: the swarm coordinator's claim/release
protocol, the git worktree manager (`auto-claude/worktree.py`), and the QA
validation loop.  Stateful Python code is embedded as explicit state-passing
functions over concrete state records; the external `git` subprocess calls are
modelled as state transitions with the observable behaviour the code relies on.
-/

set_option maxHeartbeats 1000000

/-- Association-list lookup returning the first binding of a key; mirrors
Python `dict` access (`m.get(k)`). -/
def lookupA {α : Type} : List (String × α) → String → Option α
  | [], _ => none
  | (k', v) :: rest, k => if k' = k then some v else lookupA rest k

/-- Remove every binding of a key; mirrors Python `dict.pop(k, None)`. -/
def eraseA {α : Type} (m : List (String × α)) (k : String) :
    List (String × α) :=
  m.filter (fun p => p.1 != k)

/-- Insert (or overwrite) a binding; mirrors Python `m[k] = v`. -/
def insertA {α : Type} (m : List (String × α)) (k : String) (v : α) :
    List (String × α) :=
  eraseA m k ++ [(k, v)]

namespace Coord

/-- Chunk status enum from `implementation_plan.py` (present only through its
test suite; values fixed by `tests/test_parallel.py`). -/
inductive ChunkStatus
  | pending
  | inProgress
  | completed
  | failed
  deriving DecidableEq

/-- Worker status enum; values fixed by `tests/test_parallel.py`
(`idle/working/completed/failed`). -/
inductive WorkerStatus
  | idle
  | working
  | completed
  | failed
  deriving DecidableEq

/-- Modelled from the spec: `Chunk` of `implementation_plan.py`, which is not
among the sources (only `tests/test_parallel.py` uses it).  Fields follow §3 of
the specification. -/
structure Chunk where
  id : String
  filesToModify : List String
  filesToCreate : List String
  status : ChunkStatus
  deriving DecidableEq

/-- The chunk's declared write-set: `files_to_modify` plus `files_to_create`. -/
def writeSet (c : Chunk) : List String := c.filesToModify ++ c.filesToCreate

/-- Modelled from the spec: `Phase` of `implementation_plan.py` (not among the
sources), restricted to the fields the claim protocol reads. -/
structure Phase where
  phase : Nat
  chunks : List Chunk
  dependsOn : List Nat
  deriving DecidableEq

/-- Modelled from the spec: `WorkerAssignment` of `coordinator.py` (not among
the sources); fields fixed by `tests/test_parallel.py`. -/
structure WorkerAssignment where
  workerId : String
  phaseId : Nat
  chunkId : String
  branchName : String
  worktreePath : String
  status : WorkerStatus
  deriving DecidableEq

/-- Modelled from the spec: the mutable state of `SwarmCoordinator` — the
claimed-files table, the live WorkerAssignment map and the plan. -/
structure CoordState where
  claimedFiles : List (String × String)
  workers : List (String × WorkerAssignment)
  plan : List Phase
  deriving DecidableEq

/-- First chunk with the given id in a chunk list. -/
def findChunk : List Chunk → String → Option Chunk
  | [], _ => none
  | c :: rest, cid => if c.id = cid then some c else findChunk rest cid

/-- First chunk with the given id anywhere in the plan. -/
def findChunkInPlan (phases : List Phase) (cid : String) : Option Chunk :=
  findChunk ((phases.map Phase.chunks).flatten) cid

/-- Set the status of every chunk with the given id (the Python code mutates
the aliased chunk object held inside the plan). -/
def setChunkStatus (phases : List Phase) (cid : String) (st : ChunkStatus) :
    List Phase :=
  phases.map (fun ph =>
    { ph with chunks := ph.chunks.map (fun c =>
        if c.id = cid then { c with status := st } else c) })

/-- Modelled from the spec: `SwarmCoordinator.claim_chunk` (`coordinator.py`
is not among the sources; only `tests/test_parallel.py` exercises it).
Atomically checks that the chunk is still pending and that none of its
write-set files are claimed; on success claims every file for the worker,
records a working WorkerAssignment and marks the chunk in-progress. -/
def claim_chunk (s : CoordState) (workerId : String) (phaseId : Nat)
    (chunk : Chunk) (worktreePath branchName : String) : Bool × CoordState :=
  if chunk.status = ChunkStatus.pending ∧
      ∀ f ∈ writeSet chunk, lookupA s.claimedFiles f = none then
    (true,
      { claimedFiles := s.claimedFiles ++ (writeSet chunk).map (fun f => (f, workerId)),
        workers := insertA s.workers workerId
          { workerId := workerId, phaseId := phaseId, chunkId := chunk.id,
            branchName := branchName, worktreePath := worktreePath,
            status := WorkerStatus.working },
        plan := setChunkStatus s.plan chunk.id ChunkStatus.inProgress })
  else (false, s)

/-- Drop every claimed-files binding held by the given worker. -/
def releaseFiles (m : List (String × String)) (w : String) :
    List (String × String) :=
  m.filter (fun p => p.2 != w)

/-- Modelled from the spec: `SwarmCoordinator.release_chunk` (`coordinator.py`
is not among the sources).  Removes the worker's assignment and every file it
held (regardless of the success flag) and records the chunk's terminal
status; a release for an unknown worker is a no-op. -/
def release_chunk (s : CoordState) (workerId chunkId : String)
    (success : Bool) (output : String) : CoordState :=
  match lookupA s.workers workerId with
  | none => s
  | some _ =>
      { claimedFiles := releaseFiles s.claimedFiles workerId,
        workers := eraseA s.workers workerId,
        plan := setChunkStatus s.plan chunkId
          (if success then ChunkStatus.completed else ChunkStatus.failed) }

end Coord

namespace Worktree

/-- File contents of a branch or working tree: file name to file text. -/
abbrev Content := List (String × String)

/-- Standard name for the staging worktree (`STAGING_WORKTREE_NAME` in
`worktree.py`). -/
def STAGING_WORKTREE_NAME : String := "auto-claude"

/-- `WorktreeInfo` dataclass from `worktree.py`. -/
structure WorktreeInfo where
  path : String
  branch : String
  baseBranch : String
  isActive : Bool
  deriving DecidableEq

/-- A sandbox directory on disk under `.worktrees`: the branch checked out in
it and its working files. -/
structure SandboxDir where
  branch : String
  files : Content
  deriving DecidableEq

/-- The observable state a `WorktreeManager` acts on: the git repository
(branches, their recorded fork points off the base branch, the branch checked
out in the main checkout and whether a conflicted merge is in progress), the
sandbox directories on disk, the set of registered worktrees, the manager's
`_active_worktrees` map, whether `.worktrees` exists, and whether an external
environment problem would make `git commit` fail. -/
structure MState where
  baseBranch : String
  branches : List (String × Content)
  ancestors : List (String × Content)
  current : String
  conflicted : Bool
  dirs : List (String × SandboxDir)
  registered : List String
  active : List (String × WorktreeInfo)
  worktreesDirExists : Bool
  commitFails : Bool
  deriving DecidableEq

/-- Model of `git checkout b` in the main checkout: succeeds when the branch
exists and no conflicted merge is in progress. -/
def gitCheckout (s : MState) (b : String) : MState × Bool :=
  if s.conflicted ∨ lookupA s.branches b = none then (s, false)
  else ({ s with current := b }, true)

/-- Per-file three-way merge; `none` is a conflict (both sides changed the
file, differently). -/
def mergeFile (a o t : Option String) : Option (Option String) :=
  if o = t then some o
  else if o = a then some t
  else if t = a then some o
  else none

/-- File names bound in a content map. -/
def keysOf (c : Content) : List String := c.map Prod.fst

/-- The union of file names involved in a three-way merge. -/
def mergeKeys (anc ours theirs : Content) : List String :=
  (keysOf anc ++ keysOf ours ++ keysOf theirs).dedup

/-- Three-way content merge over the union of file names; `none` when some
file conflicts. -/
def threeWay (anc ours theirs : Content) : Option Content :=
  if (mergeKeys anc ours theirs).all (fun f =>
      (mergeFile (lookupA anc f) (lookupA ours f) (lookupA theirs f)).isSome) then
    some ((mergeKeys anc ours theirs).filterMap (fun f =>
      ((mergeFile (lookupA anc f) (lookupA ours f) (lookupA theirs f)).join).map
        (fun v => (f, v))))
  else none

/-- Model of `git merge --no-ff b` in the main checkout: three-way merge of
the current branch's content with `b`'s content against `b`'s recorded fork
point; on success the current branch advances to the merged content, on
conflict the repository is left mid-merge with a non-zero exit code. -/
def gitMergeNoFF (s : MState) (b : String) : MState × Bool :=
  if s.conflicted then (s, false)
  else
    match lookupA s.branches b with
    | none => (s, false)
    | some theirs =>
        let ours := (lookupA s.branches s.current).getD []
        let anc := (lookupA s.ancestors b).getD []
        match threeWay anc ours theirs with
        | some merged =>
            ({ s with branches := insertA s.branches s.current merged }, true)
        | none => ({ s with conflicted := true }, false)

/-- Model of `git merge --abort`: clears the mid-merge state, restoring the
pre-merge working tree; branch contents are untouched. -/
def gitMergeAbort (s : MState) : MState × Bool :=
  ({ s with conflicted := false }, true)

/-- Model of `git branch -D b`: deletes the branch unless it is checked out in
the main checkout (every caller removes the worktree before deleting its
branch, so sandbox checkouts need no extra case). -/
def gitBranchDelete (s : MState) (b : String) : MState × Bool :=
  if b = s.current ∨ lookupA s.branches b = none then (s, false)
  else
    ({ s with
        branches := eraseA s.branches b
        ancestors := eraseA s.ancestors b }, true)

/-- Model of `git worktree remove --force p`: removes the directory and its
registration when `p` is a registered worktree; fails without effect
otherwise. -/
def gitWorktreeRemove (s : MState) (p : String) : MState × Bool :=
  if p ∈ s.registered then
    ({ s with
        registered := s.registered.filter (fun q => q != p)
        dirs := eraseA s.dirs p }, true)
  else (s, false)

/-- Model of `git worktree prune`: drops registrations whose directory is
missing. -/
def gitWorktreePrune (s : MState) : MState :=
  { s with registered := s.registered.filter (fun p => (lookupA s.dirs p).isSome) }

/-- Model of `git worktree add -b branch path base`: fails when the path still
exists, the branch already exists, or the base branch is missing; on success
materializes the sandbox with the base branch's content, registers it and
creates the branch with its fork point recorded. -/
def gitWorktreeAdd (s : MState) (name branch : String) : MState × Bool :=
  match lookupA s.branches s.baseBranch with
  | none => (s, false)
  | some baseContent =>
      if (lookupA s.dirs name).isSome ∨ (lookupA s.branches branch).isSome then
        (s, false)
      else
        ({ s with
            dirs := insertA s.dirs name ⟨branch, baseContent⟩,
            registered := name :: s.registered,
            branches := insertA s.branches branch baseContent,
            ancestors := insertA s.ancestors branch baseContent }, true)

/-- Model of `shutil.rmtree(path, ignore_errors=True)`. -/
def rmtree (s : MState) (p : String) : MState :=
  { s with dirs := eraseA s.dirs p }

/-- One iteration of `_cleanup_stale_worktrees`: skip the staging worktree;
remove an unregistered directory with `rmtree`, and a registered (stale) one
with `git worktree remove --force`. -/
def cleanupStaleStep (s : MState) (name : String) : MState :=
  if name = STAGING_WORKTREE_NAME then s
  else if name ∈ s.registered then (gitWorktreeRemove s name).1
  else rmtree s name

/-- `WorktreeManager._cleanup_stale_worktrees`: iterate over the directories
under `.worktrees` and clean each up (staging excepted), then prune. -/
def cleanup_stale_worktrees (s : MState) : MState :=
  if s.worktreesDirExists then
    gitWorktreePrune ((s.dirs.map Prod.fst).foldl cleanupStaleStep s)
  else s

/-- `WorktreeManager.setup`: create the worktrees directory and clean up any
stale worktrees. -/
def setup (s : MState) : MState :=
  cleanup_stale_worktrees { s with worktreesDirExists := true }

/-- `WorktreeManager.create`: force-remove any existing worktree at the name's
path, delete the branch if it exists, then create the worktree on a new
branch from the base branch.  `none` in the second component is the raised
`WorktreeError`. -/
def create (s : MState) (name : String) (branchName? : Option String) :
    MState × Option WorktreeInfo :=
  let branchName := branchName?.getD ("auto-claude/" ++ name)
  let s1 := if (lookupA s.dirs name).isSome then (gitWorktreeRemove s name).1 else s
  let s2 := (gitBranchDelete s1 branchName).1
  let r := gitWorktreeAdd s2 name branchName
  if r.2 then
    let info : WorktreeInfo := ⟨name, branchName, s.baseBranch, true⟩
    ({ r.1 with active := insertA r.1.active name info }, some info)
  else (r.1, none)

/-- Write a file inside a sandbox directory (a worker's build artifact). -/
def writeInSandbox (s : MState) (name f v : String) : MState :=
  match lookupA s.dirs name with
  | none => s
  | some sb =>
      { s with dirs := insertA s.dirs name ⟨sb.branch, insertA sb.files f v⟩ }

/-- `WorktreeManager.remove`: force-remove the worktree's directory (falling
back to `shutil.rmtree` when git refuses), optionally delete its branch, drop
it from the active map, and prune. -/
def remove (s : MState) (name : String) (deleteBranch : Bool) : MState :=
  let info? := lookupA s.active name
  let p := match info? with
    | some i => i.path
    | none => name
  let s1 :=
    if (lookupA s.dirs p).isSome then
      let r := gitWorktreeRemove s p
      if r.2 then r.1 else rmtree s p
    else s
  let s2 := match info?, deleteBranch with
    | some i, true => (gitBranchDelete s1 i.branch).1
    | _, _ => s1
  gitWorktreePrune { s2 with active := eraseA s2.active name }

/-- One iteration of `cleanup_workers_only`: remove every tracked worktree
except staging, deleting its branch. -/
def cleanupWorkersStep (t : MState) (n : String) : MState :=
  if n = STAGING_WORKTREE_NAME then t else remove t n true

/-- `WorktreeManager.cleanup_workers_only`: remove only worker worktrees,
preserve staging, then prune. -/
def cleanup_workers_only (s : MState) : MState :=
  gitWorktreePrune ((s.active.map Prod.fst).foldl cleanupWorkersStep s)

/-- `WorktreeManager.get_staging_info`: if the staging directory exists, read
its branch from the sandbox itself and record it in the active map. -/
def get_staging_info (s : MState) : MState × Option WorktreeInfo :=
  match lookupA s.dirs STAGING_WORKTREE_NAME with
  | none => (s, none)
  | some sb =>
      let info : WorktreeInfo := ⟨STAGING_WORKTREE_NAME, sb.branch, s.baseBranch, true⟩
      ({ s with active := insertA s.active STAGING_WORKTREE_NAME info }, some info)

/-- `WorktreeManager._do_merge`: check out the base branch in the main
checkout, merge the worktree's branch with `--no-ff`, abort on conflict, and
on success optionally remove the worktree and delete its branch. -/
def do_merge (s : MState) (info : WorktreeInfo) (name : String)
    (deleteAfter : Bool) : MState × Bool :=
  let r1 := gitCheckout s s.baseBranch
  if r1.2 then
    let r2 := gitMergeNoFF r1.1 info.branch
    if r2.2 then
      if deleteAfter then (remove r2.1 name true, true) else (r2.1, true)
    else ((gitMergeAbort r2.1).1, false)
  else (r1.1, false)

/-- `WorktreeManager.merge_sync`: resolve the worktree info (falling back to
`get_staging_info` for the staging worktree) and run the merge body, without
taking the merge lock. -/
def merge_sync (s : MState) (name : String) (deleteAfter : Bool) :
    MState × Bool :=
  match lookupA s.active name with
  | some info => do_merge s info name deleteAfter
  | none =>
      if name = STAGING_WORKTREE_NAME then
        match get_staging_info s with
        | (s', some info) => do_merge s' info name deleteAfter
        | (s', none) => (s', false)
      else (s, false)

/-- `WorktreeManager.merge`: same body as `merge_sync`, but the merge body
runs holding the manager's merge lock; in this sequential embedding the
resulting state and return value coincide with `merge_sync`, while the
emitted event traces differ (see `merge_trace` and `merge_sync_trace`). -/
def merge (s : MState) (name : String) (deleteAfter : Bool) : MState × Bool :=
  match lookupA s.active name with
  | some info => do_merge s info name deleteAfter
  | none =>
      if name = STAGING_WORKTREE_NAME then
        match get_staging_info s with
        | (s', some info) => do_merge s' info name deleteAfter
        | (s', none) => (s', false)
      else (s, false)

/-- `WorktreeManager.commit_in_staging`: stage and commit everything in the
staging worktree; "nothing to commit" counts as success, a missing staging
worktree or any other commit failure as failure. -/
def commit_in_staging (s : MState) (message : String) : MState × Bool :=
  match lookupA s.dirs STAGING_WORKTREE_NAME with
  | none => (s, false)
  | some sb =>
      if sb.files = (lookupA s.branches sb.branch).getD [] then (s, true)
      else if s.commitFails then (s, false)
      else ({ s with branches := insertA s.branches sb.branch sb.files }, true)

/-- Events observable from a merge call: taking and releasing the merge lock,
and the external commands of the merge body. -/
inductive Evt
  | acquire
  | release
  | act (cmd : String)
  deriving DecidableEq

/-- The external commands `remove` issues (used for the merge-body trace). -/
def remove_cmds (s : MState) (name : String) (deleteBranch : Bool) :
    List String :=
  let info? := lookupA s.active name
  let p := match info? with
    | some i => i.path
    | none => name
  (if (lookupA s.dirs p).isSome then
      if p ∈ s.registered then ["git worktree remove --force"]
      else ["git worktree remove --force", "rmtree"]
    else [])
  ++ (match info?, deleteBranch with
    | some _, true => ["git branch -D"]
    | _, _ => [])
  ++ ["git worktree prune"]

/-- The external commands `_do_merge` issues, in order. -/
def do_merge_cmds (s : MState) (info : WorktreeInfo) (name : String)
    (deleteAfter : Bool) : List String :=
  let r1 := gitCheckout s s.baseBranch
  if r1.2 then
    let r2 := gitMergeNoFF r1.1 info.branch
    if r2.2 then
      if deleteAfter then
        ["git checkout", "git merge --no-ff"] ++ remove_cmds r2.1 name true
      else ["git checkout", "git merge --no-ff"]
    else ["git checkout", "git merge --no-ff", "git merge --abort"]
  else ["git checkout"]

/-- The event trace of `merge`: the merge body runs between acquiring and
releasing the merge lock (the info lookup precedes the lock, issuing no
external commands). -/
def merge_trace (s : MState) (name : String) (deleteAfter : Bool) : List Evt :=
  match lookupA s.active name with
  | some info =>
      Evt.acquire :: (do_merge_cmds s info name deleteAfter).map Evt.act
        ++ [Evt.release]
  | none =>
      if name = STAGING_WORKTREE_NAME then
        match get_staging_info s with
        | (s', some info) =>
            Evt.acquire :: (do_merge_cmds s' info name deleteAfter).map Evt.act
              ++ [Evt.release]
        | (_, none) => []
      else []

/-- The event trace of `merge_sync`: the same merge body, with no lock
acquisition anywhere. -/
def merge_sync_trace (s : MState) (name : String) (deleteAfter : Bool) :
    List Evt :=
  match lookupA s.active name with
  | some info => (do_merge_cmds s info name deleteAfter).map Evt.act
  | none =>
      if name = STAGING_WORKTREE_NAME then
        match get_staging_info s with
        | (s', some info) => (do_merge_cmds s' info name deleteAfter).map Evt.act
        | (_, none) => []
      else []

/-- Lock-depth checker: every external command of the trace must execute with
the merge lock held (depth positive). -/
def underLockFrom : Nat → List Evt → Bool
  | _, [] => true
  | d, Evt.acquire :: rest => underLockFrom (d + 1) rest
  | d, Evt.release :: rest => underLockFrom (d - 1) rest
  | d, Evt.act _ :: rest => decide (0 < d) && underLockFrom d rest

/-- A trace whose every external command runs with the merge lock held. -/
def underLock (tr : List Evt) : Bool := underLockFrom 0 tr

end Worktree

namespace QA

/-- Modelled from the spec: `RECURRING_ISSUE_THRESHOLD` from `qa/report.py`
(not among the sources; only re-exported by `qa/__init__.py`); the spec fixes
it at 3. -/
def RECURRING_ISSUE_THRESHOLD : Nat := 3

/-- QA sign-off status values from §4.4 of the specification. -/
inductive QAStatus
  | notStarted
  | inReview
  | approved
  | rejected
  | fixesApplied
  | escalated
  deriving DecidableEq

/-- Modelled from the spec: `_normalize_issue_key` from `qa/report.py` (not
among the sources) — case- and whitespace-insensitive, punctuation-stripped
normalization of an issue description. -/
def normalizeKey (s : String) : String :=
  let cleaned := (s.toList.map Char.toLower).filterMap (fun c =>
    if c.isAlphanum then some c
    else if c = ' ' ∨ c = '\t' ∨ c = '\n' then some ' '
    else none)
  String.mk (List.intercalate [' ']
    ((cleaned.splitOn ' ').filter (fun w => !w.isEmpty)))

/-- Modelled from the spec: a QA iteration record — iteration number, the
reviewer's verdict (true = approved) and the issues found. -/
structure IterationRecord where
  iteration : Nat
  verdict : Bool
  issues : List String
  deriving DecidableEq

/-- Does a recorded iteration report an issue normalizing to the key? -/
def iterHasKey (r : IterationRecord) (k : String) : Bool :=
  r.issues.any (fun i => normalizeKey i == k)

/-- In how many recorded iterations does an issue with the key appear? -/
def keyIterCount (h : List IterationRecord) (k : String) : Nat :=
  (h.filter (fun r => iterHasKey r k)).length

/-- Every normalized issue key appearing in the history. -/
def allKeys (h : List IterationRecord) : List String :=
  (h.map (fun r => r.issues.map normalizeKey)).flatten

/-- Modelled from the spec: `has_recurring_issues` from `qa/report.py` (not
among the sources) — some issue key appears, unresolved, in at least
`RECURRING_ISSUE_THRESHOLD` recorded iterations. -/
def has_recurring_issues (h : List IterationRecord) : Bool :=
  (allKeys h).any (fun k =>
    decide (RECURRING_ISSUE_THRESHOLD ≤ keyIterCount h k))

/-- Modelled from the spec: the iteration engine of `run_qa_validation_loop`
from `qa/loop.py` (not among the sources).  `reviews i` is the external
reviewer session's result for iteration `i` (approved?, issues found); each
iteration is recorded, approval ends the loop, recurring issues escalate
immediately, otherwise fixes are applied and the loop re-reviews until the
iteration budget is spent.  Returns the final status and the number of
iterations run. -/
def qaLoopAux (reviews : Nat → Bool × List String) :
    List IterationRecord → Nat → Nat → QAStatus × Nat
  | _, i, 0 => (QAStatus.rejected, i)
  | history, i, fuel + 1 =>
      let r := reviews i
      let entry : IterationRecord := ⟨i + 1, r.1, r.2⟩
      let history' := history ++ [entry]
      if r.1 then (QAStatus.approved, i + 1)
      else if has_recurring_issues history' then (QAStatus.escalated, i + 1)
      else qaLoopAux reviews history' (i + 1) fuel

/-- Modelled from the spec: `run_qa_validation_loop` with an iteration cap of
`maxIterations` (`MAX_QA_ITERATIONS` in `qa/loop.py`, not among the
sources; the spec leaves its value open, so it is a parameter here). -/
def run_qa_validation_loop (reviews : Nat → Bool × List String)
    (maxIterations : Nat) : QAStatus × Nat :=
  qaLoopAux reviews [] 0 maxIterations

end QA

theorem mem_eraseA {α : Type} (m : List (String × α)) (k : String)
    (p : String × α) : p ∈ eraseA m k ↔ p ∈ m ∧ p.1 ≠ k := by
  simp [eraseA, List.mem_filter]

theorem lookupA_eraseA_self {α : Type} (m : List (String × α)) (k : String) :
    lookupA (eraseA m k) k = none := by
  induction m with
  | nil => rfl
  | cons p rest ih =>
      obtain ⟨k₀, v⟩ := p
      by_cases h : k₀ = k
      · simpa [eraseA, List.filter_cons, h] using ih
      · simp only [eraseA, List.filter_cons] at ih ⊢
        simp [h, lookupA, ih]

theorem lookupA_eraseA_ne {α : Type} (m : List (String × α)) (k k' : String)
    (h : k' ≠ k) : lookupA (eraseA m k) k' = lookupA m k' := by
  induction m with
  | nil => rfl
  | cons p rest ih =>
      obtain ⟨k₀, v⟩ := p
      by_cases h0 : k₀ = k
      · subst h0
        simpa [eraseA, List.filter_cons, lookupA, Ne.symm h] using ih
      · simp only [eraseA, List.filter_cons] at ih ⊢
        by_cases h1 : k₀ = k' <;> simp [h0, h1, h, lookupA, ih]

theorem lookupA_append_none {α : Type} (a b : List (String × α)) (k : String)
    (h : lookupA a k = none) : lookupA (a ++ b) k = lookupA b k := by
  induction a with
  | nil => rfl
  | cons p rest ih =>
      obtain ⟨k₀, v⟩ := p
      by_cases h0 : k₀ = k
      · simp [lookupA, h0] at h
      · simp [lookupA, h0] at h ⊢
        exact ih h

theorem lookupA_append_some {α : Type} (a b : List (String × α)) (k : String)
    (v : α) (h : lookupA a k = some v) : lookupA (a ++ b) k = some v := by
  induction a with
  | nil => simp [lookupA] at h
  | cons p rest ih =>
      obtain ⟨k₀, v₀⟩ := p
      by_cases h0 : k₀ = k
      · simp [lookupA, h0] at h ⊢
        exact h
      · simp [lookupA, h0] at h ⊢
        exact ih h

theorem lookupA_insertA_self {α : Type} (m : List (String × α)) (k : String)
    (v : α) : lookupA (insertA m k v) k = some v := by
  have h := lookupA_eraseA_self m k
  simp only [insertA]
  rw [lookupA_append_none _ _ _ h]
  simp [lookupA]

theorem lookupA_insertA_ne {α : Type} (m : List (String × α)) (k k' : String)
    (v : α) (h : k' ≠ k) : lookupA (insertA m k v) k' = lookupA m k' := by
  rcases h0 : lookupA (eraseA m k) k' with _ | w
  · rw [insertA, lookupA_append_none _ _ _ h0]
    rw [lookupA_eraseA_ne m k k' h] at h0
    simp [lookupA, Ne.symm h, h0]
  · rw [insertA, lookupA_append_some _ _ _ _ h0]
    rw [lookupA_eraseA_ne m k k' h] at h0
    exact h0.symm

namespace Coord

theorem findChunk_setStatus (l : List Chunk) (cid : String) (st : ChunkStatus) :
    findChunk (l.map (fun c => if c.id = cid then { c with status := st } else c)) cid
      = (findChunk l cid).map (fun c => { c with status := st }) := by
  induction l with
  | nil => rfl
  | cons c rest ih =>
      by_cases h : c.id = cid
      · simp [findChunk, h]
      · simp [findChunk, h, ih]

theorem flatten_setChunkStatus (phases : List Phase) (cid : String)
    (st : ChunkStatus) :
    ((setChunkStatus phases cid st).map Phase.chunks).flatten
      = ((phases.map Phase.chunks).flatten).map
          (fun c => if c.id = cid then { c with status := st } else c) := by
  induction phases with
  | nil => rfl
  | cons ph rest ih =>
      simp only [setChunkStatus, List.map_cons, List.flatten_cons,
        List.map_append] at ih ⊢
      rw [ih]

theorem findChunkInPlan_setChunkStatus (phases : List Phase) (cid : String)
    (st : ChunkStatus) :
    findChunkInPlan (setChunkStatus phases cid st) cid
      = (findChunkInPlan phases cid).map (fun c => { c with status := st }) := by
  simp only [findChunkInPlan, flatten_setChunkStatus]
  exact findChunk_setStatus _ cid st

theorem lookupA_map_self (l : List String) (w f : String) (h : f ∈ l) :
    lookupA (l.map (fun g => (g, w))) f = some w := by
  induction l with
  | nil => simp at h
  | cons g rest ih =>
      by_cases h0 : g = f
      · simp [lookupA, h0]
      · rcases List.mem_cons.mp h with h1 | h1
        · exact absurd h1.symm h0
        · simp [lookupA, h0, ih h1]

theorem mem_releaseFiles (m : List (String × String)) (w : String)
    (p : String × String) : p ∈ releaseFiles m w ↔ p ∈ m ∧ p.2 ≠ w := by
  simp [releaseFiles, List.mem_filter]

/-- C1: `claim_chunk` returns true exactly when the chunk is pending and none
of its declared files are in the claimed-files table; in that case it maps
every write-set file to the worker, records a WorkerAssignment with status
working and sets the chunk's status to in-progress, and when either check
fails it returns false and leaves the coordinator state unchanged. -/
theorem claim_chunk_spec (s : CoordState) (workerId : String) (phaseId : Nat)
    (chunk : Chunk) (worktreePath branchName : String)
    (hfind : findChunkInPlan s.plan chunk.id = some chunk) :
    ((claim_chunk s workerId phaseId chunk worktreePath branchName).1 = true ↔
      chunk.status = ChunkStatus.pending ∧
        ∀ f ∈ writeSet chunk, lookupA s.claimedFiles f = none) ∧
    ((claim_chunk s workerId phaseId chunk worktreePath branchName).1 = true →
      (∀ f ∈ writeSet chunk,
        lookupA (claim_chunk s workerId phaseId chunk worktreePath
          branchName).2.claimedFiles f = some workerId) ∧
      lookupA (claim_chunk s workerId phaseId chunk worktreePath
          branchName).2.workers workerId
        = some ⟨workerId, phaseId, chunk.id, branchName, worktreePath,
            WorkerStatus.working⟩ ∧
      (findChunkInPlan (claim_chunk s workerId phaseId chunk worktreePath
          branchName).2.plan chunk.id).map Chunk.status
        = some ChunkStatus.inProgress) ∧
    ((claim_chunk s workerId phaseId chunk worktreePath branchName).1 = false →
      (claim_chunk s workerId phaseId chunk worktreePath branchName).2 = s) := by
  by_cases hc : chunk.status = ChunkStatus.pending ∧
      ∀ f ∈ writeSet chunk, lookupA s.claimedFiles f = none
  · refine ⟨by simp only [claim_chunk, if_pos hc]; exact iff_of_true trivial hc,
      fun _ => ⟨?_, ?_, ?_⟩,
      by simp only [claim_chunk, if_pos hc]; intro h; simp at h⟩
    · intro f hf
      simp only [claim_chunk, if_pos hc]
      exact (lookupA_append_none _ _ _ (hc.2 f hf)).trans
        (lookupA_map_self _ workerId f hf)
    · simp only [claim_chunk, if_pos hc]
      exact lookupA_insertA_self _ _ _
    · simp only [claim_chunk, if_pos hc]
      show (findChunkInPlan (setChunkStatus s.plan chunk.id
        ChunkStatus.inProgress) chunk.id).map Chunk.status = _
      rw [findChunkInPlan_setChunkStatus, hfind]
      rfl
  · refine ⟨by simp only [claim_chunk, if_neg hc]; exact iff_of_false (by simp) hc,
      ?_, by simp only [claim_chunk, if_neg hc]; intro h; trivial⟩
    intro h
    simp only [claim_chunk, if_neg hc] at h
    simp at h

/-- Witness for C1: a concrete pending chunk with unclaimed files is claimed
successfully. -/
theorem claim_chunk_spec_witness :
    (claim_chunk
        ⟨[], [],
          [⟨1, [⟨"chunk-1", ["file1.py"], ["file2.py"], ChunkStatus.pending⟩],
            []⟩]⟩
        "worker-1" 1
        ⟨"chunk-1", ["file1.py"], ["file2.py"], ChunkStatus.pending⟩
        "/tmp/worktree" "worker-1/chunk-1").1 = true :=
  ((claim_chunk_spec _ "worker-1" 1 _ "/tmp/worktree" "worker-1/chunk-1"
      (by decide)).1).mpr (by decide)

/-- C4: `release_chunk` for an unknown worker is a no-op; for a known worker
it removes the assignment, removes every claimed-files binding held by that
worker regardless of the success flag, keeps every other binding, and sets the
chunk's status to completed when success is true and failed otherwise. -/
theorem release_chunk_spec (s : CoordState) (w cid : String) (success : Bool)
    (output : String) :
    (lookupA s.workers w = none → release_chunk s w cid success output = s) ∧
    (lookupA s.workers w ≠ none →
      lookupA (release_chunk s w cid success output).workers w = none ∧
      (∀ w', w' ≠ w →
        lookupA (release_chunk s w cid success output).workers w'
          = lookupA s.workers w') ∧
      (∀ f, (f, w) ∉ (release_chunk s w cid success output).claimedFiles) ∧
      (∀ p, p ∈ s.claimedFiles → p.2 ≠ w →
        p ∈ (release_chunk s w cid success output).claimedFiles) ∧
      findChunkInPlan (release_chunk s w cid success output).plan cid
        = (findChunkInPlan s.plan cid).map (fun c =>
            { c with status :=
                if success then ChunkStatus.completed else ChunkStatus.failed })) := by
  rcases h : lookupA s.workers w with _ | a
  · exact ⟨fun _ => by simp [release_chunk, h], fun hne => (hne rfl).elim⟩
  · refine ⟨fun hno => by simp [h] at hno, fun _ => ⟨?_, ?_, ?_, ?_, ?_⟩⟩
    · simp only [release_chunk, h]
      exact lookupA_eraseA_self _ _
    · intro w' hw'
      simp only [release_chunk, h]
      exact lookupA_eraseA_ne _ _ _ hw'
    · intro f
      simp only [release_chunk, h]
      intro hmem
      exact ((mem_releaseFiles _ _ _).mp hmem).2 rfl
    · intro p hp hpw
      simp only [release_chunk, h]
      exact (mem_releaseFiles _ _ _).mpr ⟨hp, hpw⟩
    · simp only [release_chunk, h]
      exact findChunkInPlan_setChunkStatus _ _ _

/-- Witness for C4: a concrete release removes the worker's assignment and its
claimed file. -/
theorem release_chunk_spec_witness :
    lookupA (release_chunk
        ⟨[("file1.py", "worker-1")],
          [("worker-1",
            ⟨"worker-1", 1, "chunk-1", "branch-1", "/tmp/wt",
              WorkerStatus.working⟩)],
          [⟨1, [⟨"chunk-1", ["file1.py"], [], ChunkStatus.inProgress⟩], []⟩]⟩
        "worker-1" "chunk-1" true "").workers "worker-1" = none ∧
    ("file1.py", "worker-1") ∉ (release_chunk
        ⟨[("file1.py", "worker-1")],
          [("worker-1",
            ⟨"worker-1", 1, "chunk-1", "branch-1", "/tmp/wt",
              WorkerStatus.working⟩)],
          [⟨1, [⟨"chunk-1", ["file1.py"], [], ChunkStatus.inProgress⟩], []⟩]⟩
        "worker-1" "chunk-1" true "").claimedFiles :=
  have h := (release_chunk_spec
      ⟨[("file1.py", "worker-1")],
        [("worker-1",
          ⟨"worker-1", 1, "chunk-1", "branch-1", "/tmp/wt",
            WorkerStatus.working⟩)],
        [⟨1, [⟨"chunk-1", ["file1.py"], [], ChunkStatus.inProgress⟩], []⟩]⟩
      "worker-1" "chunk-1" true "").2 (by decide)
  ⟨h.1, h.2.2.1 "file1.py"⟩

end Coord

namespace Worktree

theorem underLockFrom_act_append (l : List String) (d : Nat) :
    underLockFrom (d + 1) (l.map Evt.act ++ [Evt.release]) = true := by
  induction l generalizing d with
  | nil => rfl
  | cons c rest ih => simp [underLockFrom, ih]

/-- C2 (amended): every external command of the async `merge` executes while
the manager's merge mutex is held. -/
theorem merge_trace_under_lock (s : MState) (name : String)
    (deleteAfter : Bool) : underLock (merge_trace s name deleteAfter) = true := by
  unfold merge_trace
  rcases h : lookupA s.active name with _ | info
  · simp only []
    by_cases hn : name = STAGING_WORKTREE_NAME
    · simp only [hn, if_pos rfl]
      unfold get_staging_info
      rcases hd : lookupA s.dirs STAGING_WORKTREE_NAME with _ | sb
      · rfl
      · show underLockFrom 0 (Evt.acquire :: _ ++ [Evt.release]) = true
        show underLockFrom 1 (_ ++ [Evt.release]) = true
        exact underLockFrom_act_append _ 0
    · simp [hn, underLock, underLockFrom]
  · show underLockFrom 0 (Evt.acquire :: _ ++ [Evt.release]) = true
    show underLockFrom 1 (_ ++ [Evt.release]) = true
    exact underLockFrom_act_append _ 0

/-- C2 counterexample: a concrete `merge_sync` call executes merge-body
commands while the merge mutex is never held, refuting the claim that the
synchronous twin also holds the mutex around the merge body. -/
theorem merge_sync_runs_body_without_lock :
    merge_sync_trace
        ⟨"main", [("main", []), ("auto-claude/w", [])],
          [("auto-claude/w", [])], "main", false,
          [("w", ⟨"auto-claude/w", []⟩)], ["w"],
          [("w", ⟨"w", "auto-claude/w", "main", true⟩)], true, false⟩
        "w" true ≠ [] ∧
    underLock (merge_sync_trace
        ⟨"main", [("main", []), ("auto-claude/w", [])],
          [("auto-claude/w", [])], "main", false,
          [("w", ⟨"auto-claude/w", []⟩)], ["w"],
          [("w", ⟨"w", "auto-claude/w", "main", true⟩)], true, false⟩
        "w" true) = false := by
  constructor
  · decide
  · decide

/-- C8: `commit_in_staging` returns true both when the commit succeeds and
when there is nothing to commit, and false when no staging sandbox exists or
when the commit fails for another reason. -/
theorem commit_in_staging_spec (s : MState) (message : String) :
    (lookupA s.dirs STAGING_WORKTREE_NAME = none →
      commit_in_staging s message = (s, false)) ∧
    (∀ sb, lookupA s.dirs STAGING_WORKTREE_NAME = some sb →
      (sb.files = (lookupA s.branches sb.branch).getD [] →
        (commit_in_staging s message).2 = true) ∧
      (sb.files ≠ (lookupA s.branches sb.branch).getD [] →
        s.commitFails = false →
        (commit_in_staging s message).2 = true ∧
        lookupA (commit_in_staging s message).1.branches sb.branch
          = some sb.files) ∧
      (sb.files ≠ (lookupA s.branches sb.branch).getD [] →
        s.commitFails = true →
        (commit_in_staging s message).2 = false)) := by
  refine ⟨fun h => by simp [commit_in_staging, h], fun sb hsb => ⟨?_, ?_, ?_⟩⟩
  · intro he
    simp [commit_in_staging, hsb, he]
  · intro hne hcf
    refine ⟨by simp [commit_in_staging, hsb, hne, hcf], ?_⟩
    simp only [commit_in_staging, hsb, if_neg hne, hcf, Bool.false_eq_true,
      if_false]
    exact lookupA_insertA_self _ _ _
  · intro hne hcf
    simp [commit_in_staging, hsb, hne, hcf]

/-- Witness for C8: with a staging sandbox whose working tree equals its
branch tip, the commit reports success (nothing to commit); with a dirty tree
it also succeeds and records the content. -/
theorem commit_in_staging_spec_witness :
    (commit_in_staging
        ⟨"main", [("auto-claude/spec", [("a.py", "x")])], [], "main", false,
          [("auto-claude", ⟨"auto-claude/spec", [("a.py", "x")]⟩)],
          ["auto-claude"], [], true, false⟩ "msg").2 = true :=
  (((commit_in_staging_spec
      ⟨"main", [("auto-claude/spec", [("a.py", "x")])], [], "main", false,
        [("auto-claude", ⟨"auto-claude/spec", [("a.py", "x")]⟩)],
        ["auto-claude"], [], true, false⟩ "msg").2
    ⟨"auto-claude/spec", [("a.py", "x")]⟩ (by decide)).1) (by decide)

end Worktree

theorem mem_keys_of_lookupA {α : Type} (m : List (String × α)) (k : String)
    (h : lookupA m k ≠ none) : k ∈ m.map Prod.fst := by
  induction m with
  | nil => simp [lookupA] at h
  | cons p rest ih =>
      obtain ⟨k₀, v⟩ := p
      by_cases h0 : k₀ = k
      · simp [h0]
      · simp only [lookupA, if_neg h0] at h
        simp [ih h]

theorem lookupA_mem {α : Type} (m : List (String × α)) (k : String) (v : α)
    (h : lookupA m k = some v) : (k, v) ∈ m := by
  induction m with
  | nil => simp [lookupA] at h
  | cons p rest ih =>
      obtain ⟨k₀, v₀⟩ := p
      by_cases h0 : k₀ = k
      · subst h0
        have hv : v₀ = v := by simpa [lookupA] using h
        rw [← hv]
        exact List.mem_cons_self _ _
      · simp only [lookupA, if_neg h0] at h
        exact List.mem_cons_of_mem _ (ih h)

namespace Worktree

theorem cleanupStaleStep_dirs (t : MState) (n : String) :
    (cleanupStaleStep t n).dirs = t.dirs ∨
      (cleanupStaleStep t n).dirs = eraseA t.dirs n := by
  unfold cleanupStaleStep gitWorktreeRemove rmtree
  by_cases h1 : n = STAGING_WORKTREE_NAME
  · simp [h1]
  · by_cases h2 : n ∈ t.registered
    · simp [h1, h2]
    · simp [h1, h2]

theorem cleanupStaleStep_staging (t : MState) (n : String) :
    lookupA (cleanupStaleStep t n).dirs STAGING_WORKTREE_NAME
      = lookupA t.dirs STAGING_WORKTREE_NAME := by
  by_cases h1 : n = STAGING_WORKTREE_NAME
  · simp [cleanupStaleStep, h1]
  · rcases cleanupStaleStep_dirs t n with hd | hd <;> rw [hd]
    exact lookupA_eraseA_ne _ _ _ (Ne.symm h1)

theorem cleanupStaleStep_removes (t : MState) (n : String)
    (h1 : n ≠ STAGING_WORKTREE_NAME) :
    lookupA (cleanupStaleStep t n).dirs n = none := by
  unfold cleanupStaleStep gitWorktreeRemove rmtree
  by_cases h2 : n ∈ t.registered
  · simp [h1, h2, lookupA_eraseA_self]
  · simp [h1, h2, lookupA_eraseA_self]

theorem cleanupStaleStep_wtd (t : MState) (n : String) :
    (cleanupStaleStep t n).worktreesDirExists = t.worktreesDirExists := by
  unfold cleanupStaleStep gitWorktreeRemove rmtree
  by_cases h1 : n = STAGING_WORKTREE_NAME
  · simp [h1]
  · by_cases h2 : n ∈ t.registered
    · simp [h1, h2]
    · simp [h1, h2]

theorem foldl_cleanup_none (l : List String) (t : MState) (m : String)
    (h : lookupA t.dirs m = none) :
    lookupA (l.foldl cleanupStaleStep t).dirs m = none := by
  induction l generalizing t with
  | nil => exact h
  | cons a rest ih =>
      apply ih
      rcases cleanupStaleStep_dirs t a with hd | hd <;> rw [hd]
      · exact h
      · by_cases ha : m = a
        · subst ha
          exact lookupA_eraseA_self _ _
        · rw [lookupA_eraseA_ne _ _ _ ha]
          exact h

theorem foldl_cleanup_mem (l : List String) (t : MState) (n : String)
    (h1 : n ≠ STAGING_WORKTREE_NAME) (hm : n ∈ l) :
    lookupA (l.foldl cleanupStaleStep t).dirs n = none := by
  induction l generalizing t with
  | nil => cases hm
  | cons a rest ih =>
      rcases List.mem_cons.mp hm with rfl | hmem
      · exact foldl_cleanup_none rest _ n (cleanupStaleStep_removes t n h1)
      · exact ih _ hmem

theorem foldl_cleanup_staging (l : List String) (t : MState) :
    lookupA (l.foldl cleanupStaleStep t).dirs STAGING_WORKTREE_NAME
      = lookupA t.dirs STAGING_WORKTREE_NAME := by
  induction l generalizing t with
  | nil => rfl
  | cons a rest ih => rw [List.foldl_cons, ih, cleanupStaleStep_staging]

theorem foldl_cleanup_wtd (l : List String) (t : MState) :
    (l.foldl cleanupStaleStep t).worktreesDirExists = t.worktreesDirExists := by
  induction l generalizing t with
  | nil => rfl
  | cons a rest ih => rw [List.foldl_cons, ih, cleanupStaleStep_wtd]

/-- C5 (amended): `setup` ensures the worktrees directory exists, never
removes the staging sandbox, and removes every other sandbox directory under
the worktrees root — unregistered ones by direct deletion and registered
(stale) ones by forced worktree removal. -/
theorem setup_spec (s : MState) :
    (setup s).worktreesDirExists = true ∧
    lookupA (setup s).dirs STAGING_WORKTREE_NAME
      = lookupA s.dirs STAGING_WORKTREE_NAME ∧
    ∀ n, n ≠ STAGING_WORKTREE_NAME → lookupA (setup s).dirs n = none := by
  unfold setup cleanup_stale_worktrees
  simp only [if_pos rfl, gitWorktreePrune]
  refine ⟨foldl_cleanup_wtd _ _, foldl_cleanup_staging _ _, fun n hn => ?_⟩
  rcases hl : lookupA s.dirs n with _ | sb
  · exact foldl_cleanup_none _ _ n hl
  · refine foldl_cleanup_mem _ _ n hn ?_
    have : lookupA s.dirs n ≠ none := by rw [hl]; exact Option.some_ne_none sb
    simpa using mem_keys_of_lookupA s.dirs n this

/-- C5 counterexample: `setup` also removes a sandbox directory that is
registered with git (treating it as stale), refuting the claim that exactly
the unregistered directories are removed. -/
theorem setup_removes_registered_dir :
    "worker-1" ∈ MState.registered
        ⟨"main", [("main", [])], [], "main", false,
          [("worker-1", ⟨"auto-claude/worker-1", []⟩)], ["worker-1"], [],
          true, false⟩ ∧
    lookupA (setup
        ⟨"main", [("main", [])], [], "main", false,
          [("worker-1", ⟨"auto-claude/worker-1", []⟩)], ["worker-1"], [],
          true, false⟩).dirs "worker-1" = none := by
  constructor
  · decide
  · decide

end Worktree

namespace Worktree

theorem gitWorktreeRemove_active (s : MState) (p : String) :
    ((gitWorktreeRemove s p).1).active = s.active := by
  unfold gitWorktreeRemove
  split <;> rfl

theorem remove_active (t : MState) (name : String) (d : Bool) :
    (remove t name d).active = eraseA t.active name := by
  unfold remove gitWorktreePrune gitWorktreeRemove rmtree gitBranchDelete
  rcases h : lookupA t.active name with _ | i <;> simp only [h] <;>
    (repeat' split) <;> rfl

theorem remove_current (t : MState) (name : String) (d : Bool) :
    (remove t name d).current = t.current := by
  unfold remove gitWorktreePrune gitWorktreeRemove rmtree gitBranchDelete
  rcases h : lookupA t.active name with _ | i <;> simp only [h] <;>
    (repeat' split) <;> rfl

theorem remove_dirs_self (t : MState) (name : String) (d : Bool)
    (hp : ∀ i, lookupA t.active name = some i → i.path = name) :
    lookupA (remove t name d).dirs name = none := by
  unfold remove gitWorktreePrune gitWorktreeRemove rmtree gitBranchDelete
  rcases h : lookupA t.active name with _ | i <;> simp only [h]
  · (repeat' split) <;>
      simp_all [lookupA_eraseA_self, Bool.not_eq_true,
        Option.not_isSome_iff_eq_none]
  · have hpi : i.path = name := hp i h
    rw [hpi]
    (repeat' split) <;>
      simp_all [lookupA_eraseA_self, Bool.not_eq_true,
        Option.not_isSome_iff_eq_none]

theorem remove_dirs_other (t : MState) (name : String) (d : Bool) (m : String)
    (hm : m ≠ name)
    (hp : ∀ i, lookupA t.active name = some i → i.path = name) :
    lookupA (remove t name d).dirs m = lookupA t.dirs m := by
  unfold remove gitWorktreePrune gitWorktreeRemove rmtree gitBranchDelete
  rcases h : lookupA t.active name with _ | i <;> simp only [h]
  · (repeat' split) <;> simp_all [lookupA_eraseA_ne _ _ _ hm]
  · have hpi : i.path = name := hp i h
    rw [hpi]
    (repeat' split) <;> simp_all [lookupA_eraseA_ne _ _ _ hm]

theorem cleanupWorkersStep_active (t : MState) (n : String) :
    (cleanupWorkersStep t n).active = t.active ∨
      (cleanupWorkersStep t n).active = eraseA t.active n := by
  unfold cleanupWorkersStep
  by_cases h : n = STAGING_WORKTREE_NAME
  · simp [h]
  · simp [h, remove_active]

theorem foldl_workers_active_none (l : List String) (t : MState) (m : String)
    (h : lookupA t.active m = none) :
    lookupA (l.foldl cleanupWorkersStep t).active m = none := by
  induction l generalizing t with
  | nil => exact h
  | cons a rest ih =>
      apply ih
      rcases cleanupWorkersStep_active t a with hd | hd <;> rw [hd]
      · exact h
      · by_cases ha : m = a
        · subst ha
          exact lookupA_eraseA_self _ _
        · rw [lookupA_eraseA_ne _ _ _ ha]
          exact h

theorem cleanupWorkersStep_removes (t : MState) (n : String)
    (h1 : n ≠ STAGING_WORKTREE_NAME) :
    lookupA (cleanupWorkersStep t n).active n = none := by
  unfold cleanupWorkersStep
  rw [if_neg h1, remove_active]
  exact lookupA_eraseA_self _ _

theorem foldl_workers_active_mem (l : List String) (t : MState) (n : String)
    (h1 : n ≠ STAGING_WORKTREE_NAME) (hm : n ∈ l) :
    lookupA (l.foldl cleanupWorkersStep t).active n = none := by
  induction l generalizing t with
  | nil => cases hm
  | cons a rest ih =>
      rcases List.mem_cons.mp hm with rfl | hmem
      · exact foldl_workers_active_none rest _ n
          (cleanupWorkersStep_removes t n h1)
      · exact ih _ hmem

theorem cleanupWorkersStep_invariant (t : MState) (n : String)
    (hp : ∀ p ∈ t.active, p.2.path = p.1) :
    lookupA (cleanupWorkersStep t n).dirs STAGING_WORKTREE_NAME
        = lookupA t.dirs STAGING_WORKTREE_NAME ∧
    lookupA (cleanupWorkersStep t n).active STAGING_WORKTREE_NAME
        = lookupA t.active STAGING_WORKTREE_NAME ∧
    (∀ p ∈ (cleanupWorkersStep t n).active, p.2.path = p.1) := by
  by_cases h : n = STAGING_WORKTREE_NAME
  · unfold cleanupWorkersStep
    rw [if_pos h]
    exact ⟨rfl, rfl, hp⟩
  · have hpn : ∀ i, lookupA t.active n = some i → i.path = n :=
      fun i hi => hp (n, i) (lookupA_mem t.active n i hi)
    refine ⟨?_, ?_, ?_⟩
    · unfold cleanupWorkersStep
      rw [if_neg h]
      exact remove_dirs_other t n true STAGING_WORKTREE_NAME (Ne.symm h) hpn
    · unfold cleanupWorkersStep
      rw [if_neg h, remove_active]
      exact lookupA_eraseA_ne _ _ _ (Ne.symm h)
    · unfold cleanupWorkersStep
      rw [if_neg h]
      intro p hmem
      rw [remove_active] at hmem
      exact hp p ((mem_eraseA _ _ _).mp hmem).1

theorem foldl_workers_invariant (l : List String) (t : MState)
    (hp : ∀ p ∈ t.active, p.2.path = p.1) :
    lookupA (l.foldl cleanupWorkersStep t).dirs STAGING_WORKTREE_NAME
        = lookupA t.dirs STAGING_WORKTREE_NAME ∧
    lookupA (l.foldl cleanupWorkersStep t).active STAGING_WORKTREE_NAME
        = lookupA t.active STAGING_WORKTREE_NAME := by
  induction l generalizing t with
  | nil => exact ⟨rfl, rfl⟩
  | cons a rest ih =>
      obtain ⟨h1, h2, h3⟩ := cleanupWorkersStep_invariant t a hp
      obtain ⟨h4, h5⟩ := ih (cleanupWorkersStep t a) h3
      exact ⟨h4.trans h1, h5.trans h2⟩

/-- C7: `cleanup_workers_only` never removes the staging sandbox — the
staging directory and its active-map entry are untouched — and removes every
other entry from the active-worktree map. -/
theorem cleanup_workers_only_spec (s : MState)
    (hp : ∀ p ∈ s.active, p.2.path = p.1) :
    lookupA (cleanup_workers_only s).dirs STAGING_WORKTREE_NAME
        = lookupA s.dirs STAGING_WORKTREE_NAME ∧
    lookupA (cleanup_workers_only s).active STAGING_WORKTREE_NAME
        = lookupA s.active STAGING_WORKTREE_NAME ∧
    ∀ n, n ≠ STAGING_WORKTREE_NAME →
      lookupA (cleanup_workers_only s).active n = none := by
  unfold cleanup_workers_only
  simp only [gitWorktreePrune]
  obtain ⟨h1, h2⟩ := foldl_workers_invariant (s.active.map Prod.fst) s hp
  refine ⟨h1, h2, fun n hn => ?_⟩
  rcases hl : lookupA s.active n with _ | i
  · exact foldl_workers_active_none _ _ n hl
  · refine foldl_workers_active_mem _ _ n hn ?_
    have : lookupA s.active n ≠ none := by rw [hl]; exact Option.some_ne_none i
    exact mem_keys_of_lookupA s.active n this

/-- Witness for C7: with one worker sandbox and the staging sandbox tracked,
cleanup removes the worker's entry and keeps the staging directory and
entry. -/
theorem cleanup_workers_only_spec_witness :
    lookupA (cleanup_workers_only
        ⟨"main", [("main", [])], [], "main", false,
          [("auto-claude", ⟨"auto-claude/spec", []⟩),
            ("worker-1", ⟨"auto-claude/worker-1", []⟩)],
          ["auto-claude", "worker-1"],
          [("auto-claude", ⟨"auto-claude", "auto-claude/spec", "main", true⟩),
            ("worker-1", ⟨"worker-1", "auto-claude/worker-1", "main", true⟩)],
          true, false⟩).dirs STAGING_WORKTREE_NAME
      = some ⟨"auto-claude/spec", []⟩ ∧
    lookupA (cleanup_workers_only
        ⟨"main", [("main", [])], [], "main", false,
          [("auto-claude", ⟨"auto-claude/spec", []⟩),
            ("worker-1", ⟨"auto-claude/worker-1", []⟩)],
          ["auto-claude", "worker-1"],
          [("auto-claude", ⟨"auto-claude", "auto-claude/spec", "main", true⟩),
            ("worker-1", ⟨"worker-1", "auto-claude/worker-1", "main", true⟩)],
          true, false⟩).active "worker-1" = none :=
  have h := cleanup_workers_only_spec
      ⟨"main", [("main", [])], [], "main", false,
        [("auto-claude", ⟨"auto-claude/spec", []⟩),
          ("worker-1", ⟨"auto-claude/worker-1", []⟩)],
        ["auto-claude", "worker-1"],
        [("auto-claude", ⟨"auto-claude", "auto-claude/spec", "main", true⟩),
          ("worker-1", ⟨"worker-1", "auto-claude/worker-1", "main", true⟩)],
        true, false⟩ (by decide)
  ⟨h.1.trans (by decide), h.2.2 "worker-1" (by decide)⟩

end Worktree

theorem lookupA_eq_none_of_not_mem {α : Type} (m : List (String × α))
    (k : String) (h : k ∉ m.map Prod.fst) : lookupA m k = none := by
  rcases hl : lookupA m k with _ | v
  · rfl
  · exact absurd (mem_keys_of_lookupA m k (by rw [hl]; exact Option.some_ne_none v)) h

theorem lookupA_keyMap (keys : List String) (F : String → Option String)
    (f : String) (hnd : keys.Nodup) :
    lookupA (keys.filterMap (fun k => (F k).map (fun v => (k, v)))) f
      = if f ∈ keys then F f else none := by
  induction keys with
  | nil => simp [lookupA]
  | cons a rest ih =>
      obtain ⟨hna, hnd'⟩ := List.nodup_cons.mp hnd
      rcases hF : F a with _ | v
      · rw [List.filterMap_cons_none (by rw [hF]; rfl), ih hnd']
        by_cases hfa : f = a
        · subst hfa
          rw [if_neg hna, if_pos (List.mem_cons_self f rest), hF]
        · by_cases hfr : f ∈ rest
          · rw [if_pos hfr, if_pos (List.mem_cons_of_mem a hfr)]
          · have hnm : f ∉ a :: rest := by
              intro hm
              rcases List.mem_cons.mp hm with h1 | h2
              · exact hfa h1
              · exact hfr h2
            rw [if_neg hfr, if_neg hnm]
      · rw [List.filterMap_cons_some (by rw [hF]; rfl)]
        by_cases hfa : a = f
        · subst hfa
          simp [lookupA, hF]
        · simp only [lookupA, if_neg hfa, ih hnd']
          by_cases hfr : f ∈ rest
          · rw [if_pos hfr, if_pos (List.mem_cons_of_mem a hfr)]
          · have hnm : f ∉ a :: rest := by
              intro hm
              rcases List.mem_cons.mp hm with h1 | h2
              · exact hfa h1.symm
              · exact hfr h2
            rw [if_neg hfr, if_neg hnm]

namespace Worktree

theorem mergeKeys_nodup (anc ours theirs : Content) :
    (mergeKeys anc ours theirs).Nodup :=
  List.nodup_dedup _

theorem threeWay_lookup (anc ours theirs m : Content) (f : String)
    (h : threeWay anc ours theirs = some m) :
    mergeFile (lookupA anc f) (lookupA ours f) (lookupA theirs f)
      = some (lookupA m f) := by
  unfold threeWay at h
  rcases hall : (mergeKeys anc ours theirs).all
      (fun g => (mergeFile (lookupA anc g) (lookupA ours g) (lookupA theirs g)).isSome)
    with _ | _
  · rw [hall] at h
    simp at h
  · rw [hall] at h
    simp only [if_true] at h
    obtain rfl := Option.some.inj h.symm
    by_cases hf : f ∈ mergeKeys anc ours theirs
    · have hs := List.all_eq_true.mp hall f hf
      obtain ⟨v, hv⟩ := Option.isSome_iff_exists.mp hs
      rw [hv]
      congr 1
      rw [lookupA_keyMap _ _ f (mergeKeys_nodup anc ours theirs), if_pos hf, hv]
      rfl
    · have hnmem : ∀ c : Content, keysOf c ⊆
          (keysOf anc ++ keysOf ours ++ keysOf theirs) →
          lookupA c f = none := by
        intro c hsub
        refine lookupA_eq_none_of_not_mem c f (fun hm => hf ?_)
        rw [mergeKeys, List.mem_dedup]
        exact hsub hm
      have ha := hnmem anc (by intro x hx; simp [hx])
      have ho := hnmem ours (by intro x hx; simp [hx])
      have ht := hnmem theirs (by intro x hx; simp [hx])
      rw [ha, ho, ht]
      rw [lookupA_keyMap _ _ f (mergeKeys_nodup anc ours theirs), if_neg hf]
      rfl

theorem threeWay_changes (anc ours theirs m : Content) (f : String)
    (h : threeWay anc ours theirs = some m)
    (hch : lookupA theirs f ≠ lookupA anc f) :
    lookupA m f = lookupA theirs f := by
  have hl := threeWay_lookup anc ours theirs m f h
  unfold mergeFile at hl
  by_cases h1 : lookupA ours f = lookupA theirs f
  · rw [if_pos h1] at hl
    exact (Option.some.inj hl).symm.trans h1
  · rw [if_neg h1] at hl
    by_cases h2 : lookupA ours f = lookupA anc f
    · rw [if_pos h2] at hl
      exact (Option.some.inj hl).symm
    · rw [if_neg h2, if_neg hch] at hl
      cases hl

theorem do_merge_eval (s : MState) (info : WorktreeInfo) (name : String)
    (dAfter : Bool) (ours theirs anc : Content)
    (hnc : s.conflicted = false)
    (hbase : lookupA s.branches s.baseBranch = some ours)
    (hbr : lookupA s.branches info.branch = some theirs)
    (hanc : (lookupA s.ancestors info.branch).getD [] = anc) :
    (threeWay anc ours theirs = none →
      do_merge s info name dAfter
        = ({ s with
              current := s.baseBranch
              conflicted := false }, false)) ∧
    (∀ merged, threeWay anc ours theirs = some merged →
      (dAfter = false →
        do_merge s info name dAfter
          = ({ s with
                current := s.baseBranch
                branches := insertA s.branches s.baseBranch merged }, true)) ∧
      (dAfter = true →
        do_merge s info name dAfter
          = (remove { s with
                current := s.baseBranch
                branches := insertA s.branches s.baseBranch merged } name true,
              true))) := by
  have hbne : ¬(s.conflicted = true ∨ lookupA s.branches s.baseBranch = none) := by
    rw [hnc, hbase]
    simp
  constructor
  · intro hcf
    unfold do_merge gitCheckout gitMergeNoFF gitMergeAbort
    rw [if_neg hbne]
    simp only [hnc, hbase, hbr, hanc, hcf, if_true, if_false, Bool.false_eq_true,
      Option.getD_some]
  · intro merged hm
    constructor
    · intro hd
      subst hd
      unfold do_merge gitCheckout gitMergeNoFF
      rw [if_neg hbne]
      simp only [hnc, hbase, hbr, hanc, hm, if_true, if_false, Bool.false_eq_true,
        Option.getD_some]
    · intro hd
      subst hd
      unfold do_merge gitCheckout gitMergeNoFF
      rw [if_neg hbne]
      simp only [hnc, hbase, hbr, hanc, hm, if_true, if_false, Bool.false_eq_true,
        Option.getD_some]

end Worktree

namespace Worktree

theorem remove_branches (t : MState) (name : String) (i : WorktreeInfo)
    (h : lookupA t.active name = some i)
    (hcur : i.branch ≠ t.current)
    (hbr : lookupA t.branches i.branch ≠ none) :
    (remove t name true).branches = eraseA t.branches i.branch := by
  unfold remove gitWorktreePrune gitWorktreeRemove rmtree gitBranchDelete
  simp only [h]
  (repeat' split) <;> simp_all

/-- C10: the merge body switches the main repository checkout to the base
branch before merging and never switches it back: whether the merge
conflicts or succeeds (with or without cleanup), the main checkout ends on
the base branch. -/
theorem merge_leaves_checkout_on_base (s : MState) (name : String)
    (dAfter : Bool) (info : WorktreeInfo) (ours theirs anc : Content)
    (hin : lookupA s.active name = some info)
    (hnc : s.conflicted = false)
    (hbase : lookupA s.branches s.baseBranch = some ours)
    (hbr : lookupA s.branches info.branch = some theirs)
    (hanc : (lookupA s.ancestors info.branch).getD [] = anc) :
    (merge_sync s name dAfter).1.current = s.baseBranch ∧
    (merge s name dAfter).1.current = s.baseBranch := by
  have hms : merge_sync s name dAfter = do_merge s info name dAfter := by
    unfold merge_sync
    simp only [hin]
  have hme : merge s name dAfter = do_merge s info name dAfter := by
    unfold merge
    simp only [hin]
  have heval := do_merge_eval s info name dAfter ours theirs anc hnc hbase hbr hanc
  have hcur : (do_merge s info name dAfter).1.current = s.baseBranch := by
    rcases hm : threeWay anc ours theirs with _ | merged
    · rw [heval.1 hm]
    · cases dAfter
      · rw [(heval.2 merged hm).1 rfl]
      · rw [(heval.2 merged hm).2 rfl, remove_current]
  rw [hms, hme]
  exact ⟨hcur, hcur⟩

/-- Witness for C10: a conflicting merge starting from a checkout on a
feature branch returns false yet leaves the main checkout on the base
branch. -/
theorem merge_leaves_checkout_on_base_witness :
    (merge_sync
        ⟨"main",
          [("main", [("f", "1")]), ("auto-claude/w", [("f", "2")]),
            ("feature", [])],
          [("auto-claude/w", [("f", "0")])], "feature", false,
          [("w", ⟨"auto-claude/w", [("f", "2")]⟩)], ["w"],
          [("w", ⟨"w", "auto-claude/w", "main", true⟩)], true, false⟩
        "w" false).1.current = "main" ∧
    (merge_sync
        ⟨"main",
          [("main", [("f", "1")]), ("auto-claude/w", [("f", "2")]),
            ("feature", [])],
          [("auto-claude/w", [("f", "0")])], "feature", false,
          [("w", ⟨"auto-claude/w", [("f", "2")]⟩)], ["w"],
          [("w", ⟨"w", "auto-claude/w", "main", true⟩)], true, false⟩
        "w" false).2 = false :=
  ⟨(merge_leaves_checkout_on_base
      ⟨"main",
        [("main", [("f", "1")]), ("auto-claude/w", [("f", "2")]),
          ("feature", [])],
        [("auto-claude/w", [("f", "0")])], "feature", false,
        [("w", ⟨"auto-claude/w", [("f", "2")]⟩)], ["w"],
        [("w", ⟨"w", "auto-claude/w", "main", true⟩)], true, false⟩
      "w" false ⟨"w", "auto-claude/w", "main", true⟩
      [("f", "1")] [("f", "2")] [("f", "0")]
      (by decide) rfl (by decide) (by decide) (by decide)).1,
    by decide⟩

end Worktree

namespace Worktree

/-- C3: merging a conflicting worktree branch aborts the merge, returns
false, and leaves the base branch's content unchanged with the repository
not in a conflicted state; merging a non-conflicting branch returns true,
the base branch holds the merged content containing every change the branch
made relative to its fork point, and with delete-after set the sandbox
directory and its branch are removed.  The async `merge` and `merge_sync`
behave identically. -/
theorem merge_conflict_spec (s : MState) (name : String) (dAfter : Bool)
    (info : WorktreeInfo) (ours theirs anc : Content)
    (hin : lookupA s.active name = some info)
    (hp : info.path = name)
    (hnc : s.conflicted = false)
    (hbase : lookupA s.branches s.baseBranch = some ours)
    (hbr : lookupA s.branches info.branch = some theirs)
    (hanc : (lookupA s.ancestors info.branch).getD [] = anc)
    (hne : info.branch ≠ s.baseBranch) :
    merge s name dAfter = merge_sync s name dAfter ∧
    (threeWay anc ours theirs = none →
      (merge_sync s name dAfter).2 = false ∧
      lookupA (merge_sync s name dAfter).1.branches s.baseBranch = some ours ∧
      (merge_sync s name dAfter).1.conflicted = false) ∧
    (∀ merged, threeWay anc ours theirs = some merged →
      (merge_sync s name dAfter).2 = true ∧
      lookupA (merge_sync s name dAfter).1.branches s.baseBranch = some merged ∧
      (∀ f, lookupA theirs f ≠ lookupA anc f →
        lookupA merged f = lookupA theirs f) ∧
      (dAfter = true →
        lookupA (merge_sync s name dAfter).1.dirs name = none ∧
        lookupA (merge_sync s name dAfter).1.branches info.branch = none)) := by
  have hms : merge_sync s name dAfter = do_merge s info name dAfter := by
    unfold merge_sync
    simp only [hin]
  have heval := do_merge_eval s info name dAfter ours theirs anc hnc hbase hbr hanc
  refine ⟨rfl, ?_, ?_⟩
  · intro hcf
    rw [hms, heval.1 hcf]
    exact ⟨rfl, hbase, rfl⟩
  · intro merged hm
    cases dAfter
    · rw [hms, (heval.2 merged hm).1 rfl]
      refine ⟨rfl, lookupA_insertA_self _ _ _, ?_, ?_⟩
      · intro f hch
        exact threeWay_changes anc ours theirs merged f hm hch
      · intro hfalse
        cases hfalse
    · rw [hms, (heval.2 merged hm).2 rfl]
      have hY : lookupA (MState.active { s with
          current := s.baseBranch
          branches := insertA s.branches s.baseBranch merged }) name
          = some info := hin
      have hbrY : lookupA (MState.branches { s with
          current := s.baseBranch
          branches := insertA s.branches s.baseBranch merged }) info.branch
          ≠ none := by
        show lookupA (insertA s.branches s.baseBranch merged) info.branch ≠ none
        rw [lookupA_insertA_ne _ _ _ _ hne, hbr]
        exact Option.some_ne_none theirs
      have hrb := remove_branches { s with
          current := s.baseBranch
          branches := insertA s.branches s.baseBranch merged } name info hY
        (by show info.branch ≠ s.baseBranch; exact hne) hbrY
      refine ⟨rfl, ?_, ?_, ?_⟩
      · show lookupA (remove { s with
            current := s.baseBranch
            branches := insertA s.branches s.baseBranch merged } name
            true).branches s.baseBranch = some merged
        rw [hrb, lookupA_eraseA_ne _ _ _ (Ne.symm hne)]
        exact lookupA_insertA_self _ _ _
      · intro f hch
        exact threeWay_changes anc ours theirs merged f hm hch
      · intro _
        constructor
        · show lookupA (remove { s with
              current := s.baseBranch
              branches := insertA s.branches s.baseBranch merged } name
              true).dirs name = none
          refine remove_dirs_self _ name true ?_
          intro i hi
          have hii : some info = some i := hY.symm.trans hi
          rw [← Option.some.inj hii]
          exact hp
        · show lookupA (remove { s with
              current := s.baseBranch
              branches := insertA s.branches s.baseBranch merged } name
              true).branches info.branch = none
          rw [hrb]
          exact lookupA_eraseA_self _ _

/-- Witness for C3: a concrete conflicting merge returns false and leaves the
base branch's content unchanged. -/
theorem merge_conflict_spec_witness :
    (merge_sync
        ⟨"main",
          [("main", [("f", "1")]), ("auto-claude/w", [("f", "2")])],
          [("auto-claude/w", [("f", "0")])], "main", false,
          [("w", ⟨"auto-claude/w", [("f", "2")]⟩)], ["w"],
          [("w", ⟨"w", "auto-claude/w", "main", true⟩)], true, false⟩
        "w" true).2 = false ∧
    lookupA (merge_sync
        ⟨"main",
          [("main", [("f", "1")]), ("auto-claude/w", [("f", "2")])],
          [("auto-claude/w", [("f", "0")])], "main", false,
          [("w", ⟨"auto-claude/w", [("f", "2")]⟩)], ["w"],
          [("w", ⟨"w", "auto-claude/w", "main", true⟩)], true, false⟩
        "w" true).1.branches "main" = some [("f", "1")] :=
  have h := (merge_conflict_spec
      ⟨"main",
        [("main", [("f", "1")]), ("auto-claude/w", [("f", "2")])],
        [("auto-claude/w", [("f", "0")])], "main", false,
        [("w", ⟨"auto-claude/w", [("f", "2")]⟩)], ["w"],
        [("w", ⟨"w", "auto-claude/w", "main", true⟩)], true, false⟩
      "w" true ⟨"w", "auto-claude/w", "main", true⟩
      [("f", "1")] [("f", "2")] [("f", "0")]
      (by decide) rfl rfl (by decide) (by decide) (by decide)
      (by decide)).2.1 (by decide)
  ⟨h.1, h.2.1⟩

end Worktree

namespace Worktree

/-- C6: creating a worktree of the same name twice in sequence force-removes
the first sandbox: the second `create` succeeds and yields a sandbox holding
exactly the base branch's content, so a file written into the first sandbox
(and absent from the base branch) does not survive. -/
theorem create_twice_no_artifacts (s : MState) (name f v : String)
    (bc : Content)
    (hd : lookupA s.dirs name = none)
    (hb : lookupA s.branches ("auto-claude/" ++ name) = none)
    (hbase : lookupA s.branches s.baseBranch = some bc)
    (hnb : s.baseBranch ≠ "auto-claude/" ++ name)
    (hcur : s.current ≠ "auto-claude/" ++ name)
    (hf : lookupA bc f = none) :
    ((create (writeInSandbox (create s name none).1 name f v) name
        none).2).isSome = true ∧
    lookupA (create (writeInSandbox (create s name none).1 name f v) name
        none).1.dirs name = some ⟨"auto-claude/" ++ name, bc⟩ ∧
    (match lookupA (create (writeInSandbox (create s name none).1 name f v)
        name none).1.dirs name with
      | some sb => lookupA sb.files f
      | none => none) = none := by
  have hcur' : "auto-claude/" ++ name ≠ s.current := Ne.symm hcur
  have h2 : lookupA (create (writeInSandbox (create s name none).1 name f v)
      name none).1.dirs name = some ⟨"auto-claude/" ++ name, bc⟩ := by
    simp [create, gitWorktreeAdd, gitBranchDelete, gitWorktreeRemove,
      writeInSandbox, hd, hb, hbase, hnb, hcur', lookupA_insertA_self,
      lookupA_eraseA_self, lookupA_eraseA_ne, lookupA_insertA_ne]
  refine ⟨?_, h2, ?_⟩
  · simp [create, gitWorktreeAdd, gitBranchDelete, gitWorktreeRemove,
      writeInSandbox, hd, hb, hbase, hnb, hcur', lookupA_insertA_self,
      lookupA_eraseA_self, lookupA_eraseA_ne, lookupA_insertA_ne]
  · rw [h2]
    exact hf

/-- Witness for C6: concrete double creation with an artifact written in
between; the artifact is gone and the sandbox holds the base content. -/
theorem create_twice_no_artifacts_witness :
    lookupA (create (writeInSandbox (create
        ⟨"main", [("main", [("a.py", "base")])], [], "main", false, [], [],
          [], true, false⟩ "w" none).1 "w" "junk.txt" "junk") "w"
        none).1.dirs "w" = some ⟨"auto-claude/w", [("a.py", "base")]⟩ :=
  (create_twice_no_artifacts
      ⟨"main", [("main", [("a.py", "base")])], [], "main", false, [], [],
        [], true, false⟩ "w" "junk.txt" "junk" [("a.py", "base")]
      rfl (by decide) (by decide) (by decide) (by decide) (by decide)).2.1

end Worktree

namespace QA

theorem keyIterCount_le_length (h : List IterationRecord) (k : String) :
    keyIterCount h k ≤ h.length :=
  List.length_filter_le _ _

theorem recurring_short (h : List IterationRecord)
    (hlen : h.length < RECURRING_ISSUE_THRESHOLD) :
    has_recurring_issues h = false := by
  unfold has_recurring_issues
  rw [List.any_eq_false]
  intro k hk
  simp only [decide_eq_true_eq]
  intro hge
  have := keyIterCount_le_length h k
  omega

theorem recurring_of_three (h : List IterationRecord) (k : String)
    (hlen : RECURRING_ISSUE_THRESHOLD ≤ keyIterCount h k)
    (hmem : k ∈ allKeys h) : has_recurring_issues h = true := by
  unfold has_recurring_issues
  rw [List.any_eq_true]
  exact ⟨k, hmem, by simpa using hlen⟩

theorem mem_allKeys_append (history : List IterationRecord)
    (e : IterationRecord) (k : String)
    (hm : k ∈ e.issues.map normalizeKey) :
    k ∈ allKeys (history ++ [e]) := by
  unfold allKeys
  rw [List.map_append, List.flatten_append]
  apply List.mem_append_right
  simp only [List.map_cons, List.map_nil, List.flatten_cons, List.flatten_nil,
    List.append_nil]
  exact hm

theorem qaLoopAux_escalates (reviews : Nat → Bool × List String) (k : String)
    (hrej : ∀ j, (reviews j).1 = false)
    (hkey : ∀ j, ∃ issue ∈ (reviews j).2, normalizeKey issue = k) :
    ∀ fuel history i,
      keyIterCount history k < RECURRING_ISSUE_THRESHOLD →
      RECURRING_ISSUE_THRESHOLD ≤ keyIterCount history k + fuel →
      (qaLoopAux reviews history i fuel).1 = QAStatus.escalated ∧
      (qaLoopAux reviews history i fuel).2
        ≤ i + (RECURRING_ISSUE_THRESHOLD - keyIterCount history k) := by
  intro fuel
  induction fuel with
  | zero =>
      intro history i hc hfuel
      omega
  | succ fuel ih =>
      intro history i hc hfuel
      have h0 := hrej i
      obtain ⟨issue, hm, hkeq⟩ := hkey i
      have hek : iterHasKey ⟨i + 1, false, (reviews i).2⟩ k = true := by
        unfold iterHasKey
        rw [List.any_eq_true]
        refine ⟨issue, hm, ?_⟩
        rw [hkeq]
        exact beq_self_eq_true k
      have hcount : keyIterCount (history ++ [⟨i + 1, false, (reviews i).2⟩]) k
          = keyIterCount history k + 1 := by
        simp [keyIterCount, List.filter_append, hek]
      simp only [qaLoopAux, h0, Bool.false_eq_true, if_false]
      rcases hrec : has_recurring_issues
          (history ++ [⟨i + 1, false, (reviews i).2⟩]) with _ | _
      · rw [if_neg (by rw [hrec]; simp)]
        have hlt : keyIterCount history k + 1 < RECURRING_ISSUE_THRESHOLD := by
          by_contra hge
          have h3 : RECURRING_ISSUE_THRESHOLD ≤
              keyIterCount (history ++ [⟨i + 1, false, (reviews i).2⟩]) k := by
            rw [hcount]
            omega
          have hmk : k ∈ allKeys (history ++ [⟨i + 1, false, (reviews i).2⟩]) :=
            mem_allKeys_append history _ k
              (List.mem_map.mpr ⟨issue, hm, hkeq⟩)
          rw [recurring_of_three _ k h3 hmk] at hrec
          cases hrec
        have hrest := ih (history ++ [⟨i + 1, false, (reviews i).2⟩]) (i + 1)
          (by rw [hcount]; exact hlt) (by rw [hcount]; omega)
        refine ⟨hrest.1, ?_⟩
        have := hrest.2
        rw [hcount] at this
        omega
      · rw [if_pos (by rw [hrec])]
        exact ⟨rfl, by omega⟩

/-- C9: when every review iteration is rejected and reports an issue
normalizing to the same key, the QA loop transitions to escalated and stops
strictly before reaching the iteration cap, even when the cap exceeds the
recurring-issue threshold of 3. -/
theorem qa_recurring_escalates (reviews : Nat → Bool × List String)
    (maxIterations : Nat) (k : String)
    (hcap : RECURRING_ISSUE_THRESHOLD < maxIterations)
    (hrej : ∀ j, (reviews j).1 = false)
    (hkey : ∀ j, ∃ issue ∈ (reviews j).2, normalizeKey issue = k) :
    (run_qa_validation_loop reviews maxIterations).1 = QAStatus.escalated ∧
    (run_qa_validation_loop reviews maxIterations).2 < maxIterations := by
  have hz : keyIterCount ([] : List IterationRecord) k = 0 := rfl
  have h := qaLoopAux_escalates reviews k hrej hkey maxIterations [] 0
    (by rw [hz]; simp [RECURRING_ISSUE_THRESHOLD])
    (by rw [hz]; omega)
  refine ⟨h.1, ?_⟩
  have := h.2
  rw [hz] at this
  unfold run_qa_validation_loop
  omega

/-- Witness for C9: a review stream that always rejects with the same issue
escalates in 3 iterations under a cap of 5. -/
theorem qa_recurring_escalates_witness :
    (run_qa_validation_loop (fun _ => (false, ["Same Issue!"])) 5).1
        = QAStatus.escalated ∧
    (run_qa_validation_loop (fun _ => (false, ["Same Issue!"])) 5).2 < 5 :=
  qa_recurring_escalates (fun _ => (false, ["Same Issue!"])) 5
    (normalizeKey "Same Issue!") (by decide) (fun _ => rfl)
    (fun _ => ⟨"Same Issue!", by simp, rfl⟩)

end QA
